import Mathlib

/-!
Shallow embedding of the NewEra daily-submission checker (index.js and the
panel variant).  The persisted document, the rollover rule, the membership
summary and the command handlers are translated directly from the source;
the Discord gateway is modelled by explicit parameters (the current date
string, the guild roster, the invoking member and its admin capability).
-/

/-- A guild member as seen through the gateway: an opaque id, a display
name, and the set of role ids the member holds (`member.roles.cache`). -/
structure GuildMember where
  id : String
  displayName : String
  roleIds : List String
deriving DecidableEq, Repr

/-- The live roster collaborator: the existing role ids
(`guild.roles.cache`) and the members in natural iteration order. -/
structure Guild where
  roles : List String
  members : List GuildMember
deriving DecidableEq, Repr

/-- The persisted JSON document (`data.json`).  The plain variant omits the
two panel fields; they are `none` there. -/
structure DailyChecklist where
  currentDate : String
  completed : List String
  gangRoleId : Option String
  panelMessageId : Option String
  panelChannelId : Option String
deriving DecidableEq, Repr

/-- The in-memory document together with the backing file.  `file = none`
models an absent or unparsable `data.json`. -/
structure SysState where
  doc : DailyChecklist
  file : Option DailyChecklist
deriving DecidableEq, Repr

/-- The object literal returned by `summarize`.  Fields that the code can
leave `null` are `Option`; `remaining` is `Option` because the dispatch
code guards it against JS nullish values (`if (!remaining)`), even though
`summarize` always supplies an array. -/
structure Summary where
  total : Option Nat
  doneCount : Nat
  remainingCount : Option Nat
  remaining : Option (List GuildMember)
deriving DecidableEq, Repr

/-- The reply payloads the handlers under scrutiny can produce. -/
inductive Reply where
  | roleRejection
  | alreadyDone (date : String)
  | doneRecorded
  | adminRejection
  | setRoleFirst
  | everyoneDone
  | remainingList (l : List GuildMember)
  | pingList (l : List GuildMember)
  | resetDone
deriving DecidableEq, Repr

/-- The default document built by `loadData`'s catch branch: today's date,
empty completed list, no role, no panel refs. -/
def defaultData (today : String) : DailyChecklist :=
  { currentDate := today, completed := [], gangRoleId := none,
    panelMessageId := none, panelChannelId := none }

/-- `loadData()`: read and parse the backing file; any failure (modelled by
`none`) falls back to the default document. -/
def loadData (today : String) (file : Option DailyChecklist) : DailyChecklist :=
  match file with
  | some d => d
  | none => defaultData today

/-- `ensureToday(data)`: on a date mismatch, set the date to today, clear
the completed list and save; otherwise do nothing. -/
def ensureToday (today : String) (s : SysState) : SysState :=
  if s.doc.currentDate ≠ today then
    let d := { s.doc with currentDate := today, completed := ([] : List String) }
    { doc := d, file := some d }
  else s

/-- `getGangMembers(guild)`: `null` when no role is configured or the role
id no longer resolves in the role cache; otherwise the members holding the
role, in roster order. -/
def getGangMembers (doc : DailyChecklist) (guild : Guild) : Option (List GuildMember) :=
  match doc.gangRoleId with
  | none => none
  | some rid =>
    if guild.roles.contains rid then
      some (guild.members.filter (fun m => m.roleIds.contains rid))
    else none

/-- `isGangMember(member)`: everyone is eligible until a role is
configured; afterwards the member must hold the role. -/
def isGangMember (doc : DailyChecklist) (m : GuildMember) : Bool :=
  match doc.gangRoleId with
  | none => true
  | some rid => m.roleIds.contains rid

/-- ASCII case folding of one code point. -/
def lowerNat (c : Char) : Nat :=
  if 65 ≤ c.toNat ∧ c.toNat ≤ 90 then c.toNat + 32 else c.toNat

/-- Case-folded code-point key of a display name; the model of the locale
comparator `a.displayName.localeCompare(b.displayName)`. -/
def ciKey (s : String) : List Nat :=
  s.data.map lowerNat

/-- Lexicographic order on code-point lists. -/
def lexLe : List Nat → List Nat → Bool
  | [], _ => true
  | _ :: _, [] => false
  | x :: xs, y :: ys =>
    if x < y then true
    else if y < x then false
    else lexLe xs ys

/-- The comparator passed to `sort`: case-insensitive display-name order. -/
def nameLe (a b : GuildMember) : Prop :=
  lexLe (ciKey a.displayName) (ciKey b.displayName) = true

instance : DecidableRel nameLe := fun _ _ =>
  inferInstanceAs (Decidable (_ = true))

/-- `summarize(guild)`: rollover first, then either the indeterminate shape
(no resolvable role) or the counted shape with the capped done count and
the name-sorted remaining list. -/
def summarize (today : String) (guild : Guild) (s : SysState) : Summary × SysState :=
  let s1 := ensureToday today s
  match getGangMembers s1.doc guild with
  | none =>
    ({ total := none, doneCount := s1.doc.completed.length,
       remainingCount := none, remaining := some [] }, s1)
  | some members =>
    let total := members.length
    let doneSet := s1.doc.completed.dedup
    let remaining :=
      List.insertionSort nameLe (members.filter (fun m => !(doneSet.contains m.id)))
    ({ total := some total, doneCount := min doneSet.length total,
       remainingCount := some remaining.length, remaining := some remaining }, s1)

/-- The `/done` handler (plain variant): rollover, eligibility check,
duplicate check, then append the caller id and save. -/
def doneHandler (today : String) (caller : GuildMember) (s : SysState) :
    SysState × Reply :=
  let s1 := ensureToday today s
  if !(isGangMember s1.doc caller) then (s1, Reply.roleRejection)
  else if s1.doc.completed.contains caller.id then
    (s1, Reply.alreadyDone s1.doc.currentDate)
  else
    let d := { s1.doc with completed := s1.doc.completed ++ [caller.id] }
    ({ doc := d, file := some d }, Reply.doneRecorded)

/-- The `/force-reset` handler: rollover, then set the date to today, clear
the completed list and save. -/
def forceResetHandler (today : String) (s : SysState) : SysState × Reply :=
  let s1 := ensureToday today s
  let d := { s1.doc with currentDate := today, completed := ([] : List String) }
  ({ doc := d, file := some d }, Reply.resetDone)

/-- The `/remaining` handler: dispatcher-entry rollover, summarize, then
the nullish guard on `remaining` followed by the empty/non-empty split. -/
def remainingHandler (today : String) (guild : Guild) (s : SysState) :
    SysState × Reply :=
  let s1 := ensureToday today s
  let p := summarize today guild s1
  match p.1.remaining with
  | none => (p.2, Reply.setRoleFirst)
  | some l =>
    (p.2, if l.isEmpty then Reply.everyoneDone else Reply.remainingList l)

/-- The `/ping-remaining` handler (panel variant): dispatcher-entry
rollover, explicit Manage-Guild check, summarize, nullish guard,
empty/non-empty split. -/
def pingRemainingHandler (today : String) (guild : Guild) (isAdmin : Bool)
    (s : SysState) : SysState × Reply :=
  let s1 := ensureToday today s
  if !isAdmin then (s1, Reply.adminRejection)
  else
    let p := summarize today guild s1
    match p.1.remaining with
    | none => (p.2, Reply.setRoleFirst)
    | some l =>
      if l.isEmpty then (p.2, Reply.everyoneDone)
      else (p.2, Reply.pingList l)

/-! ### Basic frame lemmas about the rollover rule -/

theorem ensureToday_of_current {today : String} {s : SysState}
    (hcur : s.doc.currentDate = today) : ensureToday today s = s := by
  unfold ensureToday
  simp [hcur]

theorem ensureToday_gangRoleId (today : String) (s : SysState) :
    (ensureToday today s).doc.gangRoleId = s.doc.gangRoleId := by
  unfold ensureToday
  split <;> rfl

theorem ensureToday_currentDate (today : String) (s : SysState) :
    (ensureToday today s).doc.currentDate = today ∨
      (ensureToday today s).doc.currentDate = s.doc.currentDate := by
  unfold ensureToday
  split <;> simp

/-- C2: applying `ensureToday` to a document whose date is stale clears the
completed set, updates the date to today and persists the document; on an
already-current document it changes nothing, hence repeated application is
idempotent. -/
theorem ensureToday_rollover (today : String) (s : SysState) :
    (s.doc.currentDate ≠ today →
      (ensureToday today s).doc.completed = [] ∧
      (ensureToday today s).doc.currentDate = today ∧
      (ensureToday today s).file = some (ensureToday today s).doc ∧
      (ensureToday today s).doc.gangRoleId = s.doc.gangRoleId) ∧
    (s.doc.currentDate = today → ensureToday today s = s) ∧
    ensureToday today (ensureToday today s) = ensureToday today s := by
  by_cases h : s.doc.currentDate = today
  · refine ⟨fun hne => absurd h hne, fun _ => ensureToday_of_current h, ?_⟩
    rw [ensureToday_of_current h, ensureToday_of_current h]
  · unfold ensureToday
    simp [h]

theorem ensureToday_rollover_witness :
    (ensureToday "2024-01-02" ⟨⟨"2024-01-01", ["x"], some "r", none, none⟩, none⟩).doc.completed
        = [] ∧
    (ensureToday "2024-01-02" ⟨⟨"2024-01-01", ["x"], some "r", none, none⟩, none⟩).doc.currentDate
        = "2024-01-02" := by
  have h :=
    (ensureToday_rollover "2024-01-02"
      ⟨⟨"2024-01-01", ["x"], some "r", none, none⟩, none⟩).1 (by decide)
  exact ⟨h.1, h.2.1⟩

/-- C8: a read/parse failure of the backing file makes `loadData` return
the fresh default document: today's date, empty completed set, no role, no
panel references. -/
theorem loadData_failure_default (today : String) :
    loadData today none =
      { currentDate := today, completed := [], gangRoleId := none,
        panelMessageId := none, panelChannelId := none } := rfl

/-! ### The indeterminate summary shape (no resolvable role) -/

/-- C3: with no configured role, or with a configured role that no longer
resolves in the live roster, `summarize` returns the indeterminate shape:
`total = null`, `remainingCount = null`, `remaining = []`, and `doneCount`
is the raw completed-list length, uncapped. -/
theorem summarize_no_role_shape (today : String) (guild : Guild) (s : SysState)
    (hcur : s.doc.currentDate = today)
    (hrole : s.doc.gangRoleId = none ∨
      ∀ rid, s.doc.gangRoleId = some rid → guild.roles.contains rid = false) :
    (summarize today guild s).1 =
      { total := none, doneCount := s.doc.completed.length,
        remainingCount := none, remaining := some [] } := by
  have hmem : getGangMembers s.doc guild = none := by
    unfold getGangMembers
    rcases hrole with h | h
    · rw [h]
    · cases hg : s.doc.gangRoleId with
      | none => rfl
      | some rid =>
        have hc : rid ∉ guild.roles := by simpa using h rid hg
        simp [hg, hc]
  simp only [summarize, ensureToday_of_current hcur, hmem]

theorem summarize_no_role_shape_witness :
    (summarize "2024-01-01" ⟨["r"], []⟩
        ⟨⟨"2024-01-01", ["u", "v"], none, none, none⟩, none⟩).1 =
      { total := none, doneCount := 2, remainingCount := none,
        remaining := some [] } := by
  have h := summarize_no_role_shape "2024-01-01" ⟨["r"], []⟩
    ⟨⟨"2024-01-01", ["u", "v"], none, none, none⟩, none⟩ rfl (Or.inl rfl)
  simpa using h

/-! ### Authorization: the ping-remaining handler -/

/-- C4: a principal without the Manage-Guild capability invoking the
admin-only `ping-remaining` handler gets the rejection reply, and the
document and the persisted state are left exactly as they were. -/
theorem pingRemaining_nonadmin_rejected (today : String) (guild : Guild)
    (s : SysState) (hcur : s.doc.currentDate = today) :
    pingRemainingHandler today guild false s = (s, Reply.adminRejection) := by
  simp only [pingRemainingHandler, ensureToday_of_current hcur]
  rfl

theorem pingRemaining_nonadmin_rejected_witness :
    pingRemainingHandler "2024-01-01" ⟨["r"], []⟩ false
        ⟨⟨"2024-01-01", ["u"], some "r", none, none⟩,
          some ⟨"2024-01-01", ["u"], some "r", none, none⟩⟩ =
      (⟨⟨"2024-01-01", ["u"], some "r", none, none⟩,
          some ⟨"2024-01-01", ["u"], some "r", none, none⟩⟩,
        Reply.adminRejection) :=
  pingRemaining_nonadmin_rejected "2024-01-01" ⟨["r"], []⟩ _ rfl

/-! ### The nullish guard on the remaining list -/

theorem summarize_remaining_some (today : String) (guild : Guild) (s : SysState) :
    ∃ l, (summarize today guild s).1.remaining = some l := by
  simp only [summarize]
  cases getGangMembers (ensureToday today s).doc guild <;> simp

theorem summarize_remaining_noRole (today : String) (guild : Guild) (s : SysState)
    (h : s.doc.gangRoleId = none) :
    (summarize today guild s).1.remaining = some [] := by
  have hmem : getGangMembers (ensureToday today s).doc guild = none := by
    unfold getGangMembers
    rw [ensureToday_gangRoleId, h]
  simp only [summarize, hmem]

/-- C10: the guard branch replying "Set a gang role with /setgangrole
first." is unreachable in both the `remaining` and the `ping-remaining`
handlers, because `summarize` always returns `remaining` as an array
(truthy in JS even when empty); consequently with no configured role the
`remaining` handler replies "Everyone is done." -/
theorem setRoleFirst_unreachable (today : String) (guild : Guild) (adm : Bool)
    (s : SysState) :
    (remainingHandler today guild s).2 ≠ Reply.setRoleFirst ∧
    (pingRemainingHandler today guild adm s).2 ≠ Reply.setRoleFirst ∧
    (s.doc.gangRoleId = none →
      (remainingHandler today guild s).2 = Reply.everyoneDone) := by
  obtain ⟨l, hl⟩ := summarize_remaining_some today guild (ensureToday today s)
  refine ⟨?_, ?_, ?_⟩
  · simp only [remainingHandler, hl]
    cases l.isEmpty <;> simp
  · cases adm with
    | false => simp [pingRemainingHandler]
    | true =>
      simp only [pingRemainingHandler, hl]
      cases l.isEmpty <;> simp
  · intro hno
    have h1 : (ensureToday today s).doc.gangRoleId = none := by
      rw [ensureToday_gangRoleId, hno]
    have h2 := summarize_remaining_noRole today guild (ensureToday today s) h1
    simp only [remainingHandler, h2]
    rfl

theorem setRoleFirst_unreachable_witness :
    (remainingHandler "2024-01-01" ⟨[], []⟩
        ⟨⟨"2024-01-01", ["u"], none, none, none⟩, none⟩).2 = Reply.everyoneDone :=
  (setRoleFirst_unreachable "2024-01-01" ⟨[], []⟩ true
    ⟨⟨"2024-01-01", ["u"], none, none, none⟩, none⟩).2.2 rfl

/-! ### Force reset -/

theorem summarize_doneCount_of_nil (today : String) (guild : Guild) (s : SysState)
    (hcur : s.doc.currentDate = today) (hnil : s.doc.completed = []) :
    (summarize today guild s).1.doneCount = 0 := by
  simp only [summarize, ensureToday_of_current hcur]
  cases getGangMembers s.doc guild <;> simp [hnil]

/-- C7: on an already-current document, `force-reset` empties the completed
set, preserves the date, the configured role id and the panel references,
persists the document, and a subsequent `summarize` reports zero done. -/
theorem forceReset_frame (today : String) (guild : Guild) (s : SysState)
    (hcur : s.doc.currentDate = today) :
    (forceResetHandler today s).1.doc.completed = [] ∧
    (forceResetHandler today s).1.doc.currentDate = s.doc.currentDate ∧
    (forceResetHandler today s).1.doc.gangRoleId = s.doc.gangRoleId ∧
    (forceResetHandler today s).1.doc.panelMessageId = s.doc.panelMessageId ∧
    (forceResetHandler today s).1.doc.panelChannelId = s.doc.panelChannelId ∧
    (forceResetHandler today s).1.file = some (forceResetHandler today s).1.doc ∧
    (summarize today guild (forceResetHandler today s).1).1.doneCount = 0 := by
  have hs : (forceResetHandler today s).1 =
      { doc := { s.doc with currentDate := today, completed := [] },
        file := some { s.doc with currentDate := today, completed := [] } } := by
    simp only [forceResetHandler, ensureToday_of_current hcur]
  rw [hs]
  refine ⟨rfl, hcur.symm, rfl, rfl, rfl, rfl, ?_⟩
  exact summarize_doneCount_of_nil today guild _ rfl rfl

theorem forceReset_frame_witness :
    (forceResetHandler "2024-01-01"
        ⟨⟨"2024-01-01", ["u", "v"], some "r", some "p", some "c"⟩, none⟩).1.doc.completed
      = [] ∧
    (forceResetHandler "2024-01-01"
        ⟨⟨"2024-01-01", ["u", "v"], some "r", some "p", some "c"⟩, none⟩).1.doc.currentDate
      = "2024-01-01" ∧
    (summarize "2024-01-01" ⟨["r"], []⟩
        (forceResetHandler "2024-01-01"
          ⟨⟨"2024-01-01", ["u", "v"], some "r", some "p", some "c"⟩, none⟩).1).1.doneCount
      = 0 := by
  have h := forceReset_frame "2024-01-01" ⟨["r"], []⟩
    ⟨⟨"2024-01-01", ["u", "v"], some "r", some "p", some "c"⟩, none⟩ rfl
  exact ⟨h.1, h.2.1, h.2.2.2.2.2.2⟩

/-! ### The done handler -/

theorem doneHandler_of_current (today : String) (caller : GuildMember)
    (s : SysState) (hcur : s.doc.currentDate = today) :
    doneHandler today caller s =
      if !(isGangMember s.doc caller) then (s, Reply.roleRejection)
      else if s.doc.completed.contains caller.id then
        (s, Reply.alreadyDone s.doc.currentDate)
      else
        ({ doc := { s.doc with completed := s.doc.completed ++ [caller.id] },
           file := some { s.doc with completed := s.doc.completed ++ [caller.id] } },
          Reply.doneRecorded) := by
  simp only [doneHandler, ensureToday_of_current hcur]

/-- C5: on a current document, an ineligible caller (role configured, role
not held) invoking `done` gets the rejection reply with document and
persisted state untouched; an eligible caller ends up in the completed
set, with the persisted file equal to the resulting document whenever it
was in sync at entry. -/
theorem done_eligibility (today : String) (caller : GuildMember) (s : SysState)
    (hcur : s.doc.currentDate = today) :
    (∀ rid, s.doc.gangRoleId = some rid → caller.roleIds.contains rid = false →
      doneHandler today caller s = (s, Reply.roleRejection)) ∧
    (isGangMember s.doc caller = true → s.file = some s.doc →
      caller.id ∈ (doneHandler today caller s).1.doc.completed ∧
      (doneHandler today caller s).1.file = some (doneHandler today caller s).1.doc) := by
  constructor
  · intro rid hrid hc
    have he : isGangMember s.doc caller = false := by
      unfold isGangMember
      rw [hrid]
      exact hc
    rw [doneHandler_of_current today caller s hcur, he]
    simp
  · intro helig hsync
    rw [doneHandler_of_current today caller s hcur, helig]
    cases hc : s.doc.completed.contains caller.id with
    | true =>
      have hm : caller.id ∈ s.doc.completed := by simpa using hc
      simp [hm, hsync]
    | false =>
      simp

theorem done_eligibility_witness :
    (doneHandler "2024-01-01" ⟨"u2", "Bo", []⟩
        ⟨⟨"2024-01-01", [], some "r", none, none⟩,
          some ⟨"2024-01-01", [], some "r", none, none⟩⟩ =
      (⟨⟨"2024-01-01", [], some "r", none, none⟩,
          some ⟨"2024-01-01", [], some "r", none, none⟩⟩, Reply.roleRejection)) ∧
    ("u1" ∈ (doneHandler "2024-01-01" ⟨"u1", "amy", ["r"]⟩
        ⟨⟨"2024-01-01", [], some "r", none, none⟩,
          some ⟨"2024-01-01", [], some "r", none, none⟩⟩).1.doc.completed) := by
  constructor
  · exact (done_eligibility "2024-01-01" ⟨"u2", "Bo", []⟩
      ⟨⟨"2024-01-01", [], some "r", none, none⟩,
        some ⟨"2024-01-01", [], some "r", none, none⟩⟩ rfl).1 "r" rfl rfl
  · exact ((done_eligibility "2024-01-01" ⟨"u1", "amy", ["r"]⟩
      ⟨⟨"2024-01-01", [], some "r", none, none⟩,
        some ⟨"2024-01-01", [], some "r", none, none⟩⟩ rfl).2 rfl rfl).1

/-- C6: with a duplicate-free completed list, an eligible member invoking
`done` twice on the same day ends with exactly one occurrence of its id in
the completed list, and the second invocation does not change the state. -/
theorem done_twice_once (today : String) (caller : GuildMember) (s : SysState)
    (hcur : s.doc.currentDate = today)
    (hnodup : s.doc.completed.Nodup)
    (helig : isGangMember s.doc caller = true) :
    (doneHandler today caller (doneHandler today caller s).1).1.doc.completed.count
        caller.id = 1 ∧
    (doneHandler today caller (doneHandler today caller s).1).1 =
      (doneHandler today caller s).1 := by
  rw [doneHandler_of_current today caller s hcur, helig]
  cases hc : s.doc.completed.contains caller.id with
  | true =>
    have hm : caller.id ∈ s.doc.completed := by simpa using hc
    simp only [Bool.not_true, Bool.false_eq_true, if_false, if_true, hc]
    rw [doneHandler_of_current today caller s hcur, helig, hc]
    constructor
    · have h1 : s.doc.completed.count caller.id ≤ 1 :=
        List.nodup_iff_count_le_one.mp hnodup caller.id
      have h2 : 0 < s.doc.completed.count caller.id :=
        List.count_pos_iff.mpr hm
      show s.doc.completed.count caller.id = 1
      omega
    · rfl
  | false =>
    simp only [Bool.not_true, Bool.false_eq_true, if_false, if_true, hc]
    have hdoc1 :
        ({ doc := { s.doc with completed := s.doc.completed ++ [caller.id] },
           file := some { s.doc with completed := s.doc.completed ++ [caller.id] } }
          : SysState).doc.currentDate = today := hcur
    rw [doneHandler_of_current today caller _ hdoc1]
    have helig1 : isGangMember
        { s.doc with completed := s.doc.completed ++ [caller.id] } caller = true := helig
    have hc1 : (s.doc.completed ++ [caller.id]).contains caller.id = true := by
      simp
    rw [helig1, hc1]
    constructor
    · have h0 : s.doc.completed.count caller.id = 0 :=
        List.count_eq_zero.mpr (by simpa using hc)
      simp [List.count_append, h0]
    · rfl

theorem done_twice_once_witness :
    (doneHandler "2024-01-01" ⟨"u1", "amy", ["r"]⟩
        (doneHandler "2024-01-01" ⟨"u1", "amy", ["r"]⟩
          ⟨⟨"2024-01-01", ["u0"], some "r", none, none⟩,
            some ⟨"2024-01-01", ["u0"], some "r", none, none⟩⟩).1).1.doc.completed.count
        "u1" = 1 := by
  have h := done_twice_once "2024-01-01" ⟨"u1", "amy", ["r"]⟩
    ⟨⟨"2024-01-01", ["u0"], some "r", none, none⟩,
      some ⟨"2024-01-01", ["u0"], some "r", none, none⟩⟩ rfl (by decide) rfl
  exact h.1

/-! ### The comparator is a total preorder -/

theorem lexLe_refl : ∀ a : List Nat, lexLe a a = true
  | [] => rfl
  | _ :: xs => by simp [lexLe, lexLe_refl xs]

theorem lexLe_total : ∀ a b : List Nat, lexLe a b = true ∨ lexLe b a = true
  | [], _ => Or.inl rfl
  | _ :: _, [] => Or.inr rfl
  | x :: xs, y :: ys => by
    rcases Nat.lt_trichotomy x y with h | h | h
    · left
      simp [lexLe, h]
    · subst h
      rcases lexLe_total xs ys with h2 | h2
      · left
        simp [lexLe, h2]
      · right
        simp [lexLe, h2]
    · right
      simp [lexLe, h]

theorem lexLe_trans : ∀ a b c : List Nat,
    lexLe a b = true → lexLe b c = true → lexLe a c = true
  | [], _, _ => fun _ _ => rfl
  | _ :: _, [], _ => fun h _ => by simp [lexLe] at h
  | _ :: _, _ :: _, [] => fun _ h => by simp [lexLe] at h
  | x :: xs, y :: ys, z :: zs => by
    intro h1 h2
    simp only [lexLe] at h1 h2 ⊢
    rcases Nat.lt_trichotomy x y with hxy | hxy | hxy
    · rcases Nat.lt_trichotomy y z with hyz | hyz | hyz
      · simp [Nat.lt_trans hxy hyz]
      · subst hyz
        simp [hxy]
      · rw [if_neg (Nat.lt_asymm hyz), if_pos hyz] at h2
        exact absurd h2 (by simp)
    · subst hxy
      rw [if_neg (Nat.lt_irrefl x), if_neg (Nat.lt_irrefl x)] at h1
      rcases Nat.lt_trichotomy x z with hxz | hxz | hxz
      · simp [hxz]
      · subst hxz
        rw [if_neg (Nat.lt_irrefl x), if_neg (Nat.lt_irrefl x)] at h2
        rw [if_neg (Nat.lt_irrefl x), if_neg (Nat.lt_irrefl x)]
        exact lexLe_trans xs ys zs h1 h2
      · rw [if_neg (Nat.lt_asymm hxz), if_pos hxz] at h2
        exact absurd h2 (by simp)
    · rw [if_neg (Nat.lt_asymm hxy), if_pos hxy] at h1
      exact absurd h1 (by simp)

instance : IsTotal GuildMember nameLe :=
  ⟨fun _ _ => lexLe_total _ _⟩

instance : IsTrans GuildMember nameLe :=
  ⟨fun _ _ _ => lexLe_trans _ _ _⟩

/-! ### Stability of the sort under key-equal filters -/

theorem filter_orderedInsert_pos {α : Type} (r : α → α → Prop) [DecidableRel r]
    (p : α → Bool) (x : α) :
    ∀ l : List α, p x = true → (∀ b ∈ l, p b = true → r x b) →
      (l.orderedInsert r x).filter p = x :: l.filter p
  | [] => by
    intro hpx _
    simp [List.orderedInsert, hpx]
  | y :: l => by
    intro hpx hall
    rw [List.orderedInsert]
    by_cases hr : r x y
    · rw [if_pos hr]
      simp [List.filter_cons, hpx]
    · rw [if_neg hr]
      have hpy : p y = false := by
        cases hy : p y
        · rfl
        · exact absurd (hall y (by simp) hy) hr
      have hrec := filter_orderedInsert_pos r p x l hpx
        (fun b hb hpb => hall b (by simp [hb]) hpb)
      simp [List.filter_cons, hpy, hrec]

theorem filter_orderedInsert_neg {α : Type} (r : α → α → Prop) [DecidableRel r]
    (p : α → Bool) (x : α) :
    ∀ l : List α, p x = false →
      (l.orderedInsert r x).filter p = l.filter p
  | [] => by
    intro hpx
    simp [List.orderedInsert, hpx]
  | y :: l => by
    intro hpx
    rw [List.orderedInsert]
    by_cases hr : r x y
    · rw [if_pos hr]
      simp [List.filter_cons, hpx]
    · rw [if_neg hr]
      have hrec := filter_orderedInsert_neg r p x l hpx
      simp [List.filter_cons, hrec]

theorem filter_insertionSort {α : Type} (r : α → α → Prop) [DecidableRel r]
    (p : α → Bool) (hp : ∀ a b, p a = true → p b = true → r a b) :
    ∀ l : List α, (List.insertionSort r l).filter p = l.filter p
  | [] => rfl
  | x :: l => by
    rw [List.insertionSort]
    cases hpx : p x with
    | true =>
      rw [filter_orderedInsert_pos r p x (List.insertionSort r l) hpx
        (fun b _ hpb => hp x b hpx hpb)]
      rw [filter_insertionSort r p hp l]
      simp [List.filter_cons, hpx]
    | false =>
      rw [filter_orderedInsert_neg r p x (List.insertionSort r l) hpx]
      rw [filter_insertionSort r p hp l]
      simp [List.filter_cons, hpx]

/-- C9: with a configured, resolvable role, the `remaining` sequence is
sorted ascending in the case-insensitive display-name order, and for each
display name the members carrying it appear in the same order as in the
roster-derived pre-sort list (stability). -/
theorem remaining_sorted_stable (today : String) (guild : Guild) (s : SysState)
    (rid : String) (hcur : s.doc.currentDate = today)
    (hrole : s.doc.gangRoleId = some rid)
    (hrid : guild.roles.contains rid = true) :
    ∃ l, (summarize today guild s).1.remaining = some l ∧
      List.Sorted nameLe l ∧
      ∀ n : String,
        l.filter (fun m => m.displayName == n) =
          ((guild.members.filter (fun m => m.roleIds.contains rid)).filter
            (fun m => !(s.doc.completed.dedup.contains m.id))).filter
            (fun m => m.displayName == n) := by
  have hmem : getGangMembers s.doc guild =
      some (guild.members.filter (fun m => m.roleIds.contains rid)) := by
    unfold getGangMembers
    rw [hrole]
    have hin : rid ∈ guild.roles := by simpa using hrid
    simp [hin]
  refine ⟨List.insertionSort nameLe
      ((guild.members.filter (fun m => m.roleIds.contains rid)).filter
        (fun m => !(s.doc.completed.dedup.contains m.id))), ?_, ?_, ?_⟩
  · simp only [summarize, ensureToday_of_current hcur, hmem]
  · exact List.sorted_insertionSort nameLe _
  · intro n
    refine filter_insertionSort nameLe (fun m => m.displayName == n) ?_ _
    intro a b ha hb
    have h1 : a.displayName = n := by simpa using ha
    have h2 : b.displayName = n := by simpa using hb
    show lexLe (ciKey a.displayName) (ciKey b.displayName) = true
    rw [h1, h2]
    exact lexLe_refl _

theorem remaining_sorted_stable_witness :
    ∃ l, (summarize "2024-01-01"
        ⟨["r"], [⟨"2", "amy", ["r"]⟩, ⟨"1", "Bo", ["r"]⟩, ⟨"3", "amy", ["r"]⟩]⟩
        ⟨⟨"2024-01-01", [], some "r", none, none⟩, none⟩).1.remaining = some l ∧
      List.Sorted nameLe l ∧
      ∀ n : String,
        l.filter (fun m => m.displayName == n) =
          ((([⟨"2", "amy", ["r"]⟩, ⟨"1", "Bo", ["r"]⟩, ⟨"3", "amy", ["r"]⟩] :
              List GuildMember).filter (fun m => m.roleIds.contains "r")).filter
            (fun m => !((([] : List String)).dedup.contains m.id))).filter
            (fun m => m.displayName == n) :=
  remaining_sorted_stable "2024-01-01"
    ⟨["r"], [⟨"2", "amy", ["r"]⟩, ⟨"1", "Bo", ["r"]⟩, ⟨"3", "amy", ["r"]⟩]⟩
    ⟨⟨"2024-01-01", [], some "r", none, none⟩, none⟩ "r" rfl rfl (by decide)

/-! ### Counting the done and remaining members -/

theorem length_filter_add_length_filter_not {α : Type} (l : List α) (p : α → Bool) :
    (l.filter p).length + (l.filter (fun a => !(p a))).length = l.length := by
  induction l with
  | nil => rfl
  | cons x xs ih =>
    cases h : p x <;> simp [List.filter_cons, h] <;> omega

theorem length_filter_eq_length_map_filter (ms : List GuildMember) (q : String → Bool) :
    (ms.filter (fun m => q m.id)).length = ((ms.map (fun m => m.id)).filter q).length := by
  induction ms with
  | nil => rfl
  | cons x xs ih =>
    cases h : q x.id <;> simp [List.filter_cons, h, ih]

theorem length_filter_mem_dedup (ids : List String) (c : List String)
    (hnd : ids.Nodup) (hsub : ∀ i ∈ c, i ∈ ids) :
    (ids.filter (fun i => c.dedup.contains i)).length = c.dedup.length := by
  have h1 : (ids.filter (fun i => c.dedup.contains i)).Nodup := hnd.filter _
  have h2 : c.dedup.Nodup := List.nodup_dedup c
  have hp : List.Perm (ids.filter (fun i => c.dedup.contains i)) c.dedup := by
    rw [List.perm_ext_iff_of_nodup h1 h2]
    intro a
    simp only [List.mem_filter, List.mem_dedup]
    constructor
    · intro h
      have := h.2
      simpa using this
    · intro h
      exact ⟨hsub a h, by simpa using h⟩
  exact hp.length_eq

theorem dedup_length_add_remaining (ms : List GuildMember) (c : List String)
    (hnd : (ms.map (fun m => m.id)).Nodup)
    (hsub : ∀ i ∈ c, ∃ m ∈ ms, m.id = i) :
    c.dedup.length + (ms.filter (fun m => !(c.dedup.contains m.id))).length
      = ms.length := by
  have hsub2 : ∀ i ∈ c, i ∈ ms.map (fun m => m.id) := by
    intro i hi
    obtain ⟨m, hm, he⟩ := hsub i hi
    exact List.mem_map.mpr ⟨m, hm, he⟩
  have e1 : (ms.filter (fun m => c.dedup.contains m.id)).length +
      (ms.filter (fun m => !(c.dedup.contains m.id))).length = ms.length :=
    length_filter_add_length_filter_not ms (fun m => c.dedup.contains m.id)
  have e2 : (ms.filter (fun m => c.dedup.contains m.id)).length =
      ((ms.map (fun m => m.id)).filter (fun i => c.dedup.contains i)).length :=
    length_filter_eq_length_map_filter ms (fun i => c.dedup.contains i)
  have e3 : ((ms.map (fun m => m.id)).filter (fun i => c.dedup.contains i)).length
      = c.dedup.length :=
    length_filter_mem_dedup (ms.map (fun m => m.id)) c hnd hsub2
  omega

/-- C1 counterexample: a stale identifier in `completed` that belongs to no
current role member.  The code reports `doneCount = 1` although
`|completed ∩ members| = 0`, and `doneCount + remainingCount = 2` exceeds
`total = 1`; the claim's formula fails at this input. -/
theorem summarize_doneCount_claim_counterexample :
    ¬ ((summarize "2024-01-01" ⟨["r"], [⟨"a", "Ann", ["r"]⟩]⟩
          ⟨⟨"2024-01-01", ["stale"], some "r", none, none⟩,
            some ⟨"2024-01-01", ["stale"], some "r", none, none⟩⟩).1.doneCount =
        min ((["stale"] : List String).filter
            (fun i => (([⟨"a", "Ann", ["r"]⟩] : List GuildMember).filter
              (fun m => m.roleIds.contains "r")).any (fun m => m.id == i))).length
          ((summarize "2024-01-01" ⟨["r"], [⟨"a", "Ann", ["r"]⟩]⟩
            ⟨⟨"2024-01-01", ["stale"], some "r", none, none⟩,
              some ⟨"2024-01-01", ["stale"], some "r", none, none⟩⟩).1.total.getD 0) ∧
      (summarize "2024-01-01" ⟨["r"], [⟨"a", "Ann", ["r"]⟩]⟩
          ⟨⟨"2024-01-01", ["stale"], some "r", none, none⟩,
            some ⟨"2024-01-01", ["stale"], some "r", none, none⟩⟩).1.doneCount +
          (summarize "2024-01-01" ⟨["r"], [⟨"a", "Ann", ["r"]⟩]⟩
            ⟨⟨"2024-01-01", ["stale"], some "r", none, none⟩,
              some ⟨"2024-01-01", ["stale"], some "r", none, none⟩⟩).1.remainingCount.getD 0 =
        (summarize "2024-01-01" ⟨["r"], [⟨"a", "Ann", ["r"]⟩]⟩
          ⟨⟨"2024-01-01", ["stale"], some "r", none, none⟩,
            some ⟨"2024-01-01", ["stale"], some "r", none, none⟩⟩).1.total.getD 0) := by
  decide

/-- C1 amended: with a configured, resolvable role, `total` is the member
count and `doneCount = min(|dedup completed|, total)` over the whole
completed set (not intersected with the members), so `doneCount ≤ total`
always holds, while `doneCount + remainingCount = total` holds whenever
every completed identifier belongs to the role's member set (roster ids
being distinct). -/
theorem summarize_doneCount_amended (today : String) (guild : Guild)
    (s : SysState) (rid : String) (hcur : s.doc.currentDate = today)
    (hrole : s.doc.gangRoleId = some rid)
    (hrid : guild.roles.contains rid = true)
    (hids : (guild.members.map (fun m => m.id)).Nodup) :
    ∃ total remC,
      (summarize today guild s).1.total = some total ∧
      (summarize today guild s).1.remainingCount = some remC ∧
      total = (guild.members.filter (fun m => m.roleIds.contains rid)).length ∧
      (summarize today guild s).1.doneCount =
        min s.doc.completed.dedup.length total ∧
      (summarize today guild s).1.doneCount ≤ total ∧
      ((∀ i ∈ s.doc.completed,
          ∃ m ∈ guild.members.filter (fun m => m.roleIds.contains rid), m.id = i) →
        (summarize today guild s).1.doneCount + remC = total) := by
  have hmem : getGangMembers s.doc guild =
      some (guild.members.filter (fun m => m.roleIds.contains rid)) := by
    unfold getGangMembers
    rw [hrole]
    have hin : rid ∈ guild.roles := by simpa using hrid
    simp [hin]
  simp only [summarize, ensureToday_of_current hcur, hmem]
  refine ⟨_, _, rfl, rfl, rfl, rfl, Nat.min_le_right _ _, ?_⟩
  intro hsub
  have hnd : ((guild.members.filter (fun m => m.roleIds.contains rid)).map
      (fun m => m.id)).Nodup :=
    List.Nodup.sublist (List.Sublist.map _ (List.filter_sublist _)) hids
  have hlen := dedup_length_add_remaining
    (guild.members.filter (fun m => m.roleIds.contains rid))
    s.doc.completed hnd hsub
  have hsort : (List.insertionSort nameLe
      ((guild.members.filter (fun m => m.roleIds.contains rid)).filter
        (fun m => !(s.doc.completed.dedup.contains m.id)))).length =
      ((guild.members.filter (fun m => m.roleIds.contains rid)).filter
        (fun m => !(s.doc.completed.dedup.contains m.id))).length :=
    (List.perm_insertionSort nameLe _).length_eq
  omega

theorem summarize_doneCount_amended_witness :
    ∃ total remC,
      (summarize "2024-01-01" ⟨["r"], [⟨"a", "Ann", ["r"]⟩, ⟨"b", "bo", ["r"]⟩]⟩
        ⟨⟨"2024-01-01", ["a"], some "r", none, none⟩, none⟩).1.total = some total ∧
      (summarize "2024-01-01" ⟨["r"], [⟨"a", "Ann", ["r"]⟩, ⟨"b", "bo", ["r"]⟩]⟩
        ⟨⟨"2024-01-01", ["a"], some "r", none, none⟩, none⟩).1.remainingCount
          = some remC ∧
      total = (([⟨"a", "Ann", ["r"]⟩, ⟨"b", "bo", ["r"]⟩] : List GuildMember).filter
        (fun m => m.roleIds.contains "r")).length ∧
      (summarize "2024-01-01" ⟨["r"], [⟨"a", "Ann", ["r"]⟩, ⟨"b", "bo", ["r"]⟩]⟩
        ⟨⟨"2024-01-01", ["a"], some "r", none, none⟩, none⟩).1.doneCount =
        min (["a"] : List String).dedup.length total ∧
      (summarize "2024-01-01" ⟨["r"], [⟨"a", "Ann", ["r"]⟩, ⟨"b", "bo", ["r"]⟩]⟩
        ⟨⟨"2024-01-01", ["a"], some "r", none, none⟩, none⟩).1.doneCount ≤ total ∧
      ((∀ i ∈ (["a"] : List String),
          ∃ m ∈ ([⟨"a", "Ann", ["r"]⟩, ⟨"b", "bo", ["r"]⟩] : List GuildMember).filter
            (fun m => m.roleIds.contains "r"), m.id = i) →
        (summarize "2024-01-01" ⟨["r"], [⟨"a", "Ann", ["r"]⟩, ⟨"b", "bo", ["r"]⟩]⟩
          ⟨⟨"2024-01-01", ["a"], some "r", none, none⟩, none⟩).1.doneCount + remC
            = total) :=
  summarize_doneCount_amended "2024-01-01"
    ⟨["r"], [⟨"a", "Ann", ["r"]⟩, ⟨"b", "bo", ["r"]⟩]⟩
    ⟨⟨"2024-01-01", ["a"], some "r", none, none⟩, none⟩ "r" rfl rfl (by decide)
    (by decide)
